import Mathlib

/-!
Verification of the PyRTS coefficient model and its sph-stream parser
(pyrts/model.py).  The Python code is embedded shallowly: the numpy
coefficient array becomes a bounds-checked pointwise store over ℚ, the
stateful line loop of `read_sph_stream` becomes a fold over an explicit
parser state, and every Python exception (assert, IndexError, ValueError,
TypeError) becomes a constructor of `Err`.
-/

/-- Accumulator-based whitespace tokenizer over the characters of a line. -/
def tokenize : List Char → List Char → List String
  | acc, [] => if acc = [] then [] else [String.mk acc.reverse]
  | acc, c :: cs =>
    if c.isWhitespace then
      (if acc = [] then [] else [String.mk acc.reverse]) ++ tokenize [] cs
    else tokenize (c :: acc) cs

/-- Python `str.split()`: split on whitespace runs, dropping empty pieces. -/
def pySplit (s : String) : List String :=
  tokenize [] s.toList

/-- Python `str.count('1')`, used on the two header bitstring tokens. -/
def countOnes (s : String) : ℕ :=
  (s.toList.filter (fun c => c = '1')).length

/-- Value of a list of decimal digit characters. -/
def natOfDigits (l : List Char) : ℕ :=
  l.foldl (fun a c => 10 * a + (c.toNat - 48)) 0

/-- Strip one optional leading sign, returning the sign factor. -/
def stripSign : List Char → ℤ × List Char
  | '-' :: r => (-1, r)
  | '+' :: r => (1, r)
  | r => (1, r)

/-- Python `int(token)`: optional sign followed by decimal digits;
`none` models the ValueError on anything else. -/
def pyInt (s : String) : Option ℤ :=
  let (sgn, cs) := stripSign s.toList
  if cs ≠ [] ∧ cs.all Char.isDigit then some (sgn * natOfDigits cs) else none

/-- Split a character list at the occurrences of a dot. -/
def splitDot : List Char → List Char → List (List Char)
  | acc, [] => [acc.reverse]
  | acc, c :: cs =>
    if c = '.' then acc.reverse :: splitDot [] cs else splitDot (c :: acc) cs

/-- Python `float(token)` on plain decimal literals (optional sign, digits,
optional fractional part); the exact value is kept as a rational, which is
faithful here because the program never computes with the parsed numbers.
`none` models the ValueError on a malformed token. -/
def pyFloat (s : String) : Option ℚ :=
  let (sgn, cs) := stripSign s.toList
  match splitDot [] cs with
  | [a] =>
    if a ≠ [] ∧ a.all Char.isDigit then some (mkRat (sgn * natOfDigits a) 1)
    else none
  | [a, b] =>
    if (a ≠ [] ∨ b ≠ []) ∧ a.all Char.isDigit ∧ b.all Char.isDigit then
      some (mkRat (sgn * (natOfDigits a * 10 ^ b.length + natOfDigits b)) (10 ^ b.length))
    else none
  | _ => none

/-- The numpy array `np.zeros((nk, 2, d1, d1))` of `_allocate_coefs`:
shape data plus a total valuation of the entries.  Entries outside the
shape are irrelevant; writes are bounds-checked like numpy assignment. -/
structure Coefs where
  nk : ℕ
  d1 : ℕ
  data : ℕ → ℕ → ℕ → ℕ → ℚ

/-- numpy item assignment `coefs[k, b, l, m] = v`; `none` models the
IndexError on an out-of-bounds index. -/
def setCoef (c : Coefs) (k b l m : ℕ) (v : ℚ) : Option Coefs :=
  if k < c.nk ∧ b < 2 ∧ l < c.d1 ∧ m < c.d1 then
    some { c with data := fun a b' e f =>
      if a = k ∧ b' = b ∧ e = l ∧ f = m then v else c.data a b' e f }
  else none

/-- `_allocate_coefs`: `np.zeros((nk, 2, degree+1, degree+1))`; `none`
models numpy's rejection of a negative dimension. -/
def allocateCoefs (nk : ℕ) (degree : ℤ) : Option Coefs :=
  if 0 ≤ degree + 1 then some ⟨nk, (degree + 1).toNat, fun _ _ _ _ => 0⟩
  else none

/-- The shape-relevant attributes of a PyRTS object during parsing. -/
structure Model where
  knots : List ℚ
  degree : Option ℤ
  coefs : Option Coefs

/-- Every way the embedded code can fail, one constructor per Python
exception site. -/
inductive Err where
  /-- IndexError reading a missing header token. -/
  | headerIndex
  /-- ValueError from `int()` on header token 1 or 3. -/
  | headerValue
  /-- assert "Wrong number of 1s in SH header". -/
  | wrongSHOnes
  /-- assert "Wrong number of 1s in knots header". -/
  | wrongKnotsOnes
  /-- numpy ValueError allocating with a negative dimension. -/
  | negDim
  /-- assert "Too many lines!". -/
  | tooManyLines
  /-- ValueError from `float()` on a body token. -/
  | badFloat
  /-- numpy IndexError writing a coefficient. -/
  | coefIndex
  /-- TypeError comparing `li` with a `None` degree. -/
  | cmpNone
  /-- assert "Too much data". -/
  | tooMuchData
  /-- assert "You must provide a filename or degree". -/
  | noShape
  deriving DecidableEq

/-- State of `read_sph_stream` between lines: before the header line, or in
the body with the pending token buffer `dataline` and the loop counters
`ri` (knot) and `li` (degree). -/
inductive PSt where
  | header (m : Model)
  | body (knots : List ℚ) (degree : Option ℤ) (coefs : Coefs)
      (dataline : List String) (ri li : ℕ)

/-- The `enumerate(dataline)` loop decoding one completed group: `m` is the
position in the group, `mi` the running order index; position 0 and odd
positions write the real component (component 0), even positions > 0 write
the imaginary component (component 1) and advance `mi`.  A bad token is the
`float()` ValueError, a failed write the numpy IndexError. -/
def decodeTokens (ri li : ℕ) : Coefs → ℕ → ℕ → List String → Except Err Coefs
  | c, _, _, [] => .ok c
  | c, m, mi, t :: ts =>
    match pyFloat t with
    | none => .error .badFloat
    | some v =>
      if m = 0 then
        match setCoef c ri 0 li mi v with
        | none => .error .coefIndex
        | some c' => decodeTokens ri li c' (m + 1) (mi + 1) ts
      else if m % 2 = 1 then
        match setCoef c ri 0 li mi v with
        | none => .error .coefIndex
        | some c' => decodeTokens ri li c' (m + 1) mi ts
      else
        match setCoef c ri 1 li mi v with
        | none => .error .coefIndex
        | some c' => decodeTokens ri li c' (m + 1) (mi + 1) ts

/-- The body branch of the line loop, on the tokens of one physical line:
extend the pending buffer; if it reaches exactly `2*li+1` tokens, check the
knot counter, decode the group, advance `(ri, li)` and clear the buffer;
otherwise assert the extended buffer is strictly under the group size (the
same trailing assert trivially holds on the cleared buffer in the first
branch, so it is elided there). -/
def processBody (ks : List ℚ) (deg : Option ℤ) (c : Coefs)
    (buf : List String) (ri li : ℕ) (toks : List String) : Except Err PSt :=
  let buf' := buf ++ toks
  if buf'.length = 2 * li + 1 then
    if ri ≤ ks.length then
      match decodeTokens ri li c 0 0 buf' with
      | .error e => .error e
      | .ok c' =>
        match deg with
        | none => .error .cmpNone
        | some d =>
          if ((li : ℤ) + 1 > d) then .ok (.body ks deg c' [] (ri + 1) 0)
          else .ok (.body ks deg c' [] ri (li + 1))
    else .error .tooManyLines
  else
    if buf'.length < 2 * li + 1 then .ok (.body ks deg c buf' ri li)
    else .error .tooMuchData

/-- The tail of the header branch from `knots_in_file = int(header[2])` on,
given the header tokens from index 2 onward (a missing token is the
IndexError of `header[2]` / `header[3]`): read tokens 3 and 4, check the
knot-count assert, and either keep the already allocated array or set the
degree from the header and allocate. -/
def headerKnotsStep (m : Model) (rest2 : List String) (usedDegrees : ℕ) :
    Except Err PSt :=
  match rest2 with
  | [] => .error .headerIndex
  | t2 :: rest3 =>
    match pyInt t2 with
    | none => .error .headerValue
    | some _knotsInFile =>
      match rest3 with
      | [] => .error .headerIndex
      | t3 :: _ =>
        if m.knots.length = countOnes t3 then
          match m.coefs with
          | none =>
            match allocateCoefs m.knots.length ((usedDegrees : ℤ) - 1) with
            | none => .error .negDim
            | some c =>
              .ok (.body m.knots (some ((usedDegrees : ℤ) - 1)) c [] 0 0)
          | some c => .ok (.body m.knots m.degree c [] 0 0)
        else .error .wrongKnotsOnes

/-- The header branch of the line loop: split the (very first) line, read
the header tokens in source order with their failure modes (IndexError on a
missing token, ValueError on a non-integer), and check the degree assert
when the model already has a fixed degree. -/
def processHeader (m : Model) (line : String) : Except Err PSt :=
  match pySplit line with
  | [] => .error .headerIndex
  | t0 :: rest1 =>
    match pyInt t0 with
    | none => .error .headerValue
    | some _degreeInFile =>
      match rest1 with
      | [] => .error .headerIndex
      | t1 :: rest2 =>
        match m.degree with
        | some d =>
          if (countOnes t1 : ℤ) - 1 = d then headerKnotsStep m rest2 (countOnes t1)
          else .error .wrongSHOnes
        | none => headerKnotsStep m rest2 (countOnes t1)

/-- One iteration of `for line in fileobj`. -/
def processLine (st : PSt) (line : String) : Except Err PSt :=
  match st with
  | .header m => processHeader m line
  | .body ks deg c buf ri li => processBody ks deg c buf ri li (pySplit line)

/-- The model attributes carried by a parser state. -/
def stToModel : PSt → Model
  | .header m => m
  | .body ks deg c _ _ _ => ⟨ks, deg, some c⟩

/-- `read_sph_stream`: fold the line loop over the stream; the loop simply
ends with the input (there is no end-of-stream check in the source). -/
def readSphStream (m : Model) (lines : List String) : Except Err Model :=
  match lines.foldlM processLine (PSt.header m) with
  | .error e => .error e
  | .ok st => .ok (stToModel st)

/-- The `DEFAULT_KNOTS` table of the source (21 entries). -/
def DEFAULT_KNOTS : List ℚ :=
  [1, mkRat 96512 100000, mkRat 92675 100000, mkRat 88454 100000,
   mkRat 83810 100000, mkRat 78701 100000, mkRat 73081 100000,
   mkRat 66899 100000, mkRat 60097 100000, mkRat 52615 100000,
   mkRat 44384 100000, mkRat 35329 100000, mkRat 25367 100000,
   mkRat 14409 100000, mkRat 2353 100000, mkRat (-10909) 1000000,
   mkRat (-25499) 100000, mkRat (-41550) 100000, mkRat (-59207) 100000,
   mkRat (-78631) 100000, -1]

/-- A fully constructed PyRTS object. -/
structure PyRTSObj where
  knots : List ℚ
  degree : Option ℤ
  coefs : Option Coefs
  inner_radius : ℚ
  outer_radius : ℚ

/-- `PyRTS.__init__`: store the knots as given (default table when absent),
allocate from an explicit degree, then parse the file when one is supplied
(the file stands for its list of text lines), and finally assert that some
path allocated the coefficient array. -/
def pyRTSInit (filename : Option (List String)) (degree : Option ℤ)
    (knots : Option (List ℚ)) (inner_radius outer_radius : ℚ) :
    Except Err PyRTSObj :=
  let ks := match knots with | none => DEFAULT_KNOTS | some k => k
  let alloc : Except Err (Option ℤ × Option Coefs) :=
    match degree with
    | some d =>
      match allocateCoefs ks.length d with
      | none => .error .negDim
      | some c => .ok (some d, some c)
    | none => .ok (none, none)
  match alloc with
  | .error e => .error e
  | .ok (dg, cf) =>
    match (match filename with
           | some lines => readSphStream ⟨ks, dg, cf⟩ lines
           | none => .ok (⟨ks, dg, cf⟩ : Model)) with
    | .error e => .error e
    | .ok m =>
      match m.coefs with
      | none => .error .noShape
      | some c => .ok ⟨m.knots, m.degree, some c, inner_radius, outer_radius⟩

/-- The error of a failed run, `none` on success. -/
def resultErr : Except Err α → Option Err
  | .error e => some e
  | .ok _ => none

/-- Whether a run succeeded. -/
def isOkB : Except Err α → Bool
  | .ok _ => true
  | .error _ => false

/-- Read one coefficient entry out of a finished construction. -/
def coefOf : Except Err PyRTSObj → ℕ → ℕ → ℕ → ℕ → Option ℚ
  | .ok o, k, b, l, m => o.coefs.map (fun c => c.data k b l m)
  | .error _, _, _, _, _ => none

/-- Read one coefficient entry out of a parsed model. -/
def modelCoefOf : Except Err Model → ℕ → ℕ → ℕ → ℕ → Option ℚ
  | .ok m, k, b, l, mi => m.coefs.map (fun c => c.data k b l mi)
  | .error _, _, _, _, _ => none

/-- Recover the coefficient array of a successful group decode. -/
def getOkCoefs (r : Except Err Coefs) (d : Coefs) : Coefs :=
  match r with
  | .ok c => c
  | .error _ => d

/-- Recover the model of a successful parse. -/
def getOkModel (r : Except Err Model) (d : Model) : Model :=
  match r with
  | .ok m => m
  | .error _ => d

/-- A model with one knot and no shape fixed yet, used for instantiations. -/
def oneKnotModel : Model := ⟨[1], none, none⟩

/-- A zero-size, all-zero array, used as a recovery default. -/
def emptyCoefs : Coefs := ⟨0, 0, fun _ _ _ _ => 0⟩

/-- The entries above the diagonal (order index greater than degree index)
all hold the zero default. -/
def UpperZero (c : Coefs) : Prop :=
  ∀ k b l m, l < m → c.data k b l m = 0

/-- `UpperZero` at the array (if any) of a parser state. -/
def StUpper : PSt → Prop
  | .header m => ∀ c, m.coefs = some c → UpperZero c
  | .body _ _ c _ _ _ => UpperZero c

/-- The stream of the end-to-end scenario: default 21-knot table, degree 1,
header "1 11 21 <21 ones>", and per knot one group of 1 token then one
group of 3 tokens. -/
def c1Lines : List String :=
  "1 11 21 111111111111111111111" ::
    (List.replicate 21 ["0.5", "0.1 0.2 0.3"]).flatten

/-- Construction from the end-to-end scenario stream. -/
def c1Run : Except Err PyRTSObj :=
  pyRTSInit (some c1Lines) none none 3480 (mkRat 6346691 1000)

/-- A 1-knot array of degree 1 for instantiating the decode mapping. -/
def c1demoStart : Coefs := ⟨1, 2, fun _ _ _ _ => 0⟩

/-- One completed degree-1 group of tokens. -/
def c1demoTokens : List String := ["0.25", "0.5", "0.75"]

/-- The array after decoding the demonstration group. -/
def c1demoDecoded : Coefs :=
  getOkCoefs (decodeTokens 0 1 c1demoStart 0 0 c1demoTokens) c1demoStart

/-! ### Properties of single writes and of group decoding -/

/-- A successful write leaves the shape alone, stores the value at the
target index, and leaves every other entry unchanged. -/
theorem setCoef_spec {c c' : Coefs} {k b l m : ℕ} {v : ℚ}
    (h : setCoef c k b l m v = some c') :
    c'.nk = c.nk ∧ c'.d1 = c.d1 ∧ c'.data k b l m = v ∧
    ∀ a b' e f, ¬(a = k ∧ b' = b ∧ e = l ∧ f = m) →
      c'.data a b' e f = c.data a b' e f := by
  unfold setCoef at h
  split at h
  · cases h
    refine ⟨rfl, rfl, by simp, ?_⟩
    intro a b' e f hne
    simp only [if_neg hne]
  · cases h

/-- Decoding an even-length tail of a group from an odd position `m` with
running order `mi` writes consecutive token pairs as the real and imaginary
components at orders `mi, mi+1, ...` and moves nothing else. -/
theorem decodeTokens_pairs {ri li : ℕ} :
    ∀ (k : ℕ) (ts : List String) (c c' : Coefs) (m mi : ℕ),
      ts.length = 2 * k → m % 2 = 1 →
      decodeTokens ri li c m mi ts = .ok c' →
      (∀ j, mi ≤ j → j < mi + k →
          pyFloat (ts.getD (2 * (j - mi)) "") = some (c'.data ri 0 li j) ∧
          pyFloat (ts.getD (2 * (j - mi) + 1) "") = some (c'.data ri 1 li j)) ∧
      (∀ a b e f, a ≠ ri ∨ e ≠ li ∨ f < mi ∨ mi + k ≤ f →
          c'.data a b e f = c.data a b e f) := by
  intro k
  induction k with
  | zero =>
    intro ts c c' m mi hlen _ h
    have hts : ts = [] := List.length_eq_zero.mp (by omega)
    subst hts
    cases h
    constructor
    · intro j h1 h2
      omega
    · intro a b e f _
      rfl
  | succ k ih =>
    intro ts c c' m mi hlen hodd h
    cases ts with
    | nil => simp at hlen
    | cons t1 ts1 =>
      cases ts1 with
      | nil => simp at hlen; omega
      | cons t2 rest =>
        have hm0 : ¬(m = 0) := by omega
        have hm1 : ¬(m + 1 = 0) := by omega
        have hm2 : ¬((m + 1) % 2 = 1) := by omega
        cases hv1 : pyFloat t1 with
        | none =>
          simp only [decodeTokens, hv1] at h
          cases h
        | some v1 =>
          cases hw1 : setCoef c ri 0 li mi v1 with
          | none =>
            simp only [decodeTokens, hv1, if_neg hm0, if_pos hodd, hw1] at h
            cases h
          | some c1 =>
            cases hv2 : pyFloat t2 with
            | none =>
              simp only [decodeTokens, hv1, if_neg hm0, if_pos hodd, hw1,
                hv2] at h
              cases h
            | some v2 =>
              cases hw2 : setCoef c1 ri 1 li mi v2 with
              | none =>
                simp only [decodeTokens, hv1, if_neg hm0, if_pos hodd, hw1,
                  hv2, if_neg hm1, if_neg hm2, hw2] at h
                cases h
              | some c2 =>
                simp only [decodeTokens, hv1, if_neg hm0, if_pos hodd, hw1,
                  hv2, if_neg hm1, if_neg hm2, hw2] at h
                have hrest : rest.length = 2 * k := by
                  simp at hlen; omega
                have hodd2 : (m + 1 + 1) % 2 = 1 := by omega
                obtain ⟨ihW, ihU⟩ :=
                  ih rest c2 c' (m + 1 + 1) (mi + 1) hrest hodd2 h
                obtain ⟨-, -, hw1v, hw1o⟩ := setCoef_spec hw1
                obtain ⟨-, -, hw2v, hw2o⟩ := setCoef_spec hw2
                constructor
                · intro j hj1 hj2
                  by_cases hje : j = mi
                  · subst hje
                    have hz : 2 * (j - j) = 0 := by omega
                    have hu0 : c'.data ri 0 li j = c2.data ri 0 li j :=
                      ihU ri 0 li j (by omega)
                    have hu1 : c'.data ri 1 li j = c2.data ri 1 li j :=
                      ihU ri 1 li j (by omega)
                    have h20 : c2.data ri 0 li j = c1.data ri 0 li j := by
                      apply hw2o
                      simp
                    constructor
                    · rw [hz]
                      simp only [List.getD_cons_zero]
                      rw [hu0, h20, hw1v]
                      exact hv1
                    · rw [hz]
                      simp only [List.getD_cons_succ, List.getD_cons_zero]
                      rw [hu1, hw2v]
                      exact hv2
                  · have hj1' : mi + 1 ≤ j := by omega
                    obtain ⟨hr, hi⟩ := ihW j hj1' (by omega)
                    have e1 : 2 * (j - mi) = 2 * (j - (mi + 1)) + 1 + 1 := by
                      omega
                    constructor
                    · rw [e1]
                      simp only [List.getD_cons_succ]
                      exact hr
                    · rw [e1]
                      simp only [List.getD_cons_succ]
                      exact hi
                · intro a b e f hcond
                  have h1 : c'.data a b e f = c2.data a b e f := by
                    apply ihU
                    rcases hcond with hx | hx | hx | hx
                    · exact Or.inl hx
                    · exact Or.inr (Or.inl hx)
                    · exact Or.inr (Or.inr (Or.inl (by omega)))
                    · exact Or.inr (Or.inr (Or.inr (by omega)))
                  have h2 : c2.data a b e f = c1.data a b e f := by
                    apply hw2o
                    rintro ⟨rfl, rfl, rfl, rfl⟩
                    rcases hcond with hx | hx | hx | hx
                    · exact hx rfl
                    · exact hx rfl
                    · omega
                    · omega
                  have h3 : c1.data a b e f = c.data a b e f := by
                    apply hw1o
                    rintro ⟨rfl, rfl, rfl, rfl⟩
                    rcases hcond with hx | hx | hx | hx
                    · exact hx rfl
                    · exact hx rfl
                    · omega
                    · omega
                  rw [h1, h2, h3]

/-- Characterization of a successful decode of one completed group of
`2*li+1` tokens from position 0: token 0 is the real part at order 0, the
token at odd position `2*j-1` the real part at order `j`, the token at even
position `2*j` the imaginary part at order `j`, and every entry of another
knot, another degree index, or an order above `li` is untouched. -/
theorem decodeTokens_entry {ri li : ℕ} {c c' : Coefs} {ts : List String}
    (hlen : ts.length = 2 * li + 1)
    (h : decodeTokens ri li c 0 0 ts = .ok c') :
    pyFloat (ts.getD 0 "") = some (c'.data ri 0 li 0) ∧
    (∀ j, 1 ≤ j → j ≤ li →
        pyFloat (ts.getD (2 * j - 1) "") = some (c'.data ri 0 li j) ∧
        pyFloat (ts.getD (2 * j) "") = some (c'.data ri 1 li j)) ∧
    (∀ a b e f, a ≠ ri ∨ e ≠ li ∨ li < f → c'.data a b e f = c.data a b e f) := by
  cases ts with
  | nil => simp at hlen
  | cons t rest =>
    cases hv : pyFloat t with
    | none =>
      simp only [decodeTokens, hv] at h
      cases h
    | some v =>
      cases hw : setCoef c ri 0 li 0 v with
      | none =>
        simp [decodeTokens, hv, hw] at h
      | some c1 =>
        simp only [decodeTokens, hv, hw, if_pos (Eq.refl (0 : ℕ))] at h
        have hrest : rest.length = 2 * li := by
          simp at hlen; omega
        obtain ⟨ihW, ihU⟩ :=
          decodeTokens_pairs li rest c1 c' (0 + 1) (0 + 1) hrest (by omega) h
        obtain ⟨-, -, hwv, hwo⟩ := setCoef_spec hw
        refine ⟨?_, ?_, ?_⟩
        · simp only [List.getD_cons_zero]
          have hu : c'.data ri 0 li 0 = c1.data ri 0 li 0 :=
            ihU ri 0 li 0 (by omega)
          rw [hu, hwv]
          exact hv
        · intro j hj1 hj2
          obtain ⟨hr, hi⟩ := ihW j (by omega) (by omega)
          have e1 : 2 * j - 1 = 2 * (j - (0 + 1)) + 1 := by omega
          have e2 : 2 * j = 2 * (j - (0 + 1)) + 1 + 1 := by omega
          constructor
          · rw [e1]
            simp only [List.getD_cons_succ]
            exact hr
          · rw [e2]
            simp only [List.getD_cons_succ]
            exact hi
        · intro a b e f hcond
          have h1 : c'.data a b e f = c1.data a b e f := by
            apply ihU
            rcases hcond with hx | hx | hx
            · exact Or.inl hx
            · exact Or.inr (Or.inl hx)
            · exact Or.inr (Or.inr (Or.inr (by omega)))
          have h2 : c1.data a b e f = c.data a b e f := by
            apply hwo
            rintro ⟨rfl, rfl, rfl, rfl⟩
            rcases hcond with hx | hx | hx
            · exact hx rfl
            · exact hx rfl
            · omega
          rw [h1, h2]

/-- A successful body step either completed a group (decoded it, advanced
the counters, and cleared the buffer) or merely extended the buffer, which
then stays strictly under the group size. -/
theorem processBody_ok_cases {ks : List ℚ} {deg : Option ℤ} {c : Coefs}
    {buf : List String} {ri li : ℕ} {toks : List String} {st' : PSt}
    (h : processBody ks deg c buf ri li toks = .ok st') :
    (∃ c' d, (buf ++ toks).length = 2 * li + 1 ∧ ri ≤ ks.length ∧
        decodeTokens ri li c 0 0 (buf ++ toks) = .ok c' ∧ deg = some d ∧
        st' = (if (li : ℤ) + 1 > d then PSt.body ks deg c' [] (ri + 1) 0
               else PSt.body ks deg c' [] ri (li + 1))) ∨
    ((buf ++ toks).length < 2 * li + 1 ∧
        st' = PSt.body ks deg c (buf ++ toks) ri li) := by
  unfold processBody at h
  dsimp only at h
  by_cases hlen : (buf ++ toks).length = 2 * li + 1
  · rw [if_pos hlen] at h
    by_cases hri : ri ≤ ks.length
    · rw [if_pos hri] at h
      cases hdec : decodeTokens ri li c 0 0 (buf ++ toks) with
      | error e =>
        rw [hdec] at h
        cases h
      | ok c2 =>
        rw [hdec] at h
        dsimp only at h
        cases deg with
        | none =>
          dsimp only at h
          cases h
        | some d =>
          dsimp only at h
          refine Or.inl ⟨c2, d, hlen, hri, rfl, rfl, ?_⟩
          by_cases hgt : (li : ℤ) + 1 > d
          · rw [if_pos hgt] at h
            cases h
            rw [if_pos hgt]
          · rw [if_neg hgt] at h
            cases h
            rw [if_neg hgt]
    · rw [if_neg hri] at h
      cases h
  · rw [if_neg hlen] at h
    by_cases hlt : (buf ++ toks).length < 2 * li + 1
    · rw [if_pos hlt] at h
      cases h
      exact Or.inr ⟨hlt, rfl⟩
    · rw [if_neg hlt] at h
      cases h

/-- A successful run of the knots half of the header yields a fresh body
state over the model's knot table whose array is either the model's own or
a fresh allocation. -/
theorem headerKnotsStep_ok {m : Model} {r : List String} {u : ℕ} {st' : PSt}
    (hu : headerKnotsStep m r u = .ok st') :
    ∃ deg c, st' = PSt.body m.knots deg c [] 0 0 ∧
      (m.coefs = some c ∨ ∃ d, allocateCoefs m.knots.length d = some c) := by
  unfold headerKnotsStep at hu
  cases r with
  | nil => cases hu
  | cons t2 r3 =>
    dsimp only at hu
    cases hn2 : pyInt t2 with
    | none => rw [hn2] at hu; cases hu
    | some n2 =>
      rw [hn2] at hu
      dsimp only at hu
      cases r3 with
      | nil => cases hu
      | cons t3 r4 =>
        dsimp only at hu
        by_cases hkn : m.knots.length = countOnes t3
        · rw [if_pos hkn] at hu
          cases hcf : m.coefs with
          | none =>
            rw [hcf] at hu
            dsimp only at hu
            cases halloc : allocateCoefs m.knots.length ((u : ℤ) - 1) with
            | none => rw [halloc] at hu; cases hu
            | some c2 =>
              rw [halloc] at hu
              cases hu
              exact ⟨_, c2, rfl, Or.inr ⟨_, halloc⟩⟩
          | some c2 =>
            rw [hcf] at hu
            dsimp only at hu
            cases hu
            exact ⟨_, c2, rfl, Or.inl rfl⟩
        · rw [if_neg hkn] at hu
          cases hu

/-- A successful header step yields a fresh body state over the model's
knot table whose array is either the model's own or a fresh allocation. -/
theorem processHeader_ok {m : Model} {line : String} {st' : PSt}
    (h : processHeader m line = .ok st') :
    ∃ deg c, st' = PSt.body m.knots deg c [] 0 0 ∧
      (m.coefs = some c ∨ ∃ d, allocateCoefs m.knots.length d = some c) := by
  unfold processHeader at h
  cases hs : pySplit line with
  | nil => rw [hs] at h; cases h
  | cons t0 r1 =>
    rw [hs] at h
    dsimp only at h
    cases hn0 : pyInt t0 with
    | none => rw [hn0] at h; cases h
    | some n0 =>
      rw [hn0] at h
      dsimp only at h
      cases r1 with
      | nil => cases h
      | cons t1 r2 =>
        dsimp only at h
        cases hdeg : m.degree with
        | none =>
          rw [hdeg] at h
          dsimp only at h
          exact headerKnotsStep_ok h
        | some d =>
          rw [hdeg] at h
          dsimp only at h
          by_cases hd : (countOnes t1 : ℤ) - 1 = d
          · rw [if_pos hd] at h
            exact headerKnotsStep_ok h
          · rw [if_neg hd] at h
            cases h

/-- Decoding one completed group preserves the zero-above-diagonal
invariant: every write targets an order index at most `li`. -/
theorem decodeTokens_upper {ri li : ℕ} {c c' : Coefs} {ts : List String}
    (hlen : ts.length = 2 * li + 1)
    (h : decodeTokens ri li c 0 0 ts = .ok c')
    (hc : UpperZero c) : UpperZero c' := by
  obtain ⟨-, -, hU⟩ := decodeTokens_entry hlen h
  intro k b l m hlm
  have hcond : k ≠ ri ∨ l ≠ li ∨ li < m := by
    by_cases hk : k = ri
    · by_cases hl : l = li
      · subst hl
        exact Or.inr (Or.inr hlm)
      · exact Or.inr (Or.inl hl)
    · exact Or.inl hk
  rw [hU k b l m hcond]
  exact hc k b l m hlm

/-- Every successful line step lands in a body state whose pending buffer
is strictly below the current group size (the trailing assert). -/
theorem processLine_ok_body {st st' : PSt} {line : String}
    (h : processLine st line = .ok st') :
    ∃ ks deg c buf ri li, st' = PSt.body ks deg c buf ri li ∧
      buf.length < 2 * li + 1 := by
  cases st with
  | header m =>
    obtain ⟨deg, c, rfl, -⟩ := processHeader_ok h
    exact ⟨_, _, _, _, _, _, rfl, by simp⟩
  | body ks deg c buf ri li =>
    rcases processBody_ok_cases h with ⟨c2, d, -, -, -, -, rfl⟩ | ⟨hlt, rfl⟩
    · by_cases hgt : (li : ℤ) + 1 > d
      · rw [if_pos hgt]
        exact ⟨_, _, _, _, _, _, rfl, by simp⟩
      · rw [if_neg hgt]
        exact ⟨_, _, _, _, _, _, rfl, by simp⟩
    · exact ⟨_, _, _, _, _, _, rfl, hlt⟩

/-- Every successful line step preserves the zero-above-diagonal
invariant of the state's array. -/
theorem processLine_upper {st st' : PSt} {line : String}
    (h : processLine st line = .ok st') (hP : StUpper st) : StUpper st' := by
  cases st with
  | header m =>
    obtain ⟨deg, c, rfl, hsrc⟩ := processHeader_ok h
    rcases hsrc with hsome | ⟨d, halloc⟩
    · exact hP c hsome
    · intro k b l mm hlm
      unfold allocateCoefs at halloc
      split at halloc
      · cases halloc
        rfl
      · cases halloc
  | body ks deg c buf ri li =>
    rcases processBody_ok_cases h with ⟨c2, d, hlen, -, hdec, -, rfl⟩ | ⟨-, rfl⟩
    · have h2 : UpperZero c2 := decodeTokens_upper hlen hdec hP
      by_cases hgt : (li : ℤ) + 1 > d
      · rw [if_pos hgt]
        exact h2
      · rw [if_neg hgt]
        exact h2
    · exact hP

/-- Any property preserved by single line steps is carried through the
whole line fold. -/
theorem foldlM_processLine_inv (P : PSt → Prop)
    (hstep : ∀ st line st', processLine st line = .ok st' → P st → P st') :
    ∀ (lines : List String) (st st' : PSt),
      lines.foldlM processLine st = .ok st' → P st → P st' := by
  intro lines
  induction lines with
  | nil =>
    intro st st' h hP
    rw [List.foldlM_nil] at h
    have h' : (Except.ok st : Except Err PSt) = .ok st' := h
    cases h'
    exact hP
  | cons l ls ih =>
    intro st st' h hP
    rw [List.foldlM_cons] at h
    cases h1 : processLine st l with
    | error e =>
      rw [h1] at h
      have h' : (Except.error e : Except Err PSt) = .ok st' := h
      cases h'
    | ok st1 =>
      rw [h1] at h
      have h' : ls.foldlM processLine st1 = .ok st' := h
      exact ih st1 st' h' (hstep st l st1 h1 hP)

/-- A successful fold over a concatenation splits into successful folds
over the two parts: the loop never fails at end of input. -/
theorem foldlM_processLine_split {l1 l2 : List String} {st st' : PSt}
    (h : (l1 ++ l2).foldlM processLine st = .ok st') :
    ∃ st1, l1.foldlM processLine st = .ok st1 ∧
      l2.foldlM processLine st1 = .ok st' := by
  rw [List.foldlM_append] at h
  cases h1 : l1.foldlM processLine st with
  | error e =>
    rw [h1] at h
    have h' : (Except.error e : Except Err PSt) = .ok st' := h
    cases h'
  | ok st1 =>
    rw [h1] at h
    have h' : l2.foldlM processLine st1 = .ok st' := h
    exact ⟨st1, rfl, h'⟩

/-- A successful fold over at least one line ends in a body state whose
buffer is strictly below the group size. -/
theorem foldlM_ok_body {lines : List String} :
    ∀ {st st' : PSt}, lines ≠ [] →
      lines.foldlM processLine st = .ok st' →
      ∃ ks deg c buf ri li, st' = PSt.body ks deg c buf ri li ∧
        buf.length < 2 * li + 1 := by
  induction lines with
  | nil =>
    intro st st' hne
    exact absurd rfl hne
  | cons l ls ih =>
    intro st st' _ h
    rw [List.foldlM_cons] at h
    cases h1 : processLine st l with
    | error e =>
      rw [h1] at h
      have h' : (Except.error e : Except Err PSt) = .ok st' := h
      cases h'
    | ok st1 =>
      rw [h1] at h
      have h' : ls.foldlM processLine st1 = .ok st' := h
      cases ls with
      | nil =>
        rw [List.foldlM_nil] at h'
        have h'' : (Except.ok st1 : Except Err PSt) = .ok st' := h'
        cases h''
        exact processLine_ok_body h1
      | cons l2 ls2 => exact ih (by simp) h'

/-- A whitespace-only line is a no-op on any body state whose buffer is
strictly below the group size. -/
theorem processLine_blank {ks : List ℚ} {deg : Option ℤ} {c : Coefs}
    {buf : List String} {ri li : ℕ} {b : String}
    (hb : pySplit b = []) (hinv : buf.length < 2 * li + 1) :
    processLine (PSt.body ks deg c buf ri li) b =
      .ok (PSt.body ks deg c buf ri li) := by
  show processBody ks deg c buf ri li (pySplit b) = _
  rw [hb]
  unfold processBody
  dsimp only
  rw [List.append_nil]
  rw [if_neg (Nat.ne_of_lt hinv), if_pos hinv]

/-- A run of whitespace-only lines is a no-op on any body state whose
buffer is strictly below the group size. -/
theorem foldlM_blanks {bs : List String} :
    ∀ {ks : List ℚ} {deg : Option ℤ} {c : Coefs} {buf : List String}
      {ri li : ℕ},
      (∀ b ∈ bs, pySplit b = []) → buf.length < 2 * li + 1 →
      bs.foldlM processLine (PSt.body ks deg c buf ri li) =
        .ok (PSt.body ks deg c buf ri li) := by
  induction bs with
  | nil =>
    intro ks deg c buf ri li _ _
    rfl
  | cons b bs ih =>
    intro ks deg c buf ri li hb hinv
    rw [List.foldlM_cons, processLine_blank (hb b (List.mem_cons_self b bs)) hinv]
    show bs.foldlM processLine (PSt.body ks deg c buf ri li) = _
    exact ih (fun x hx => hb x (List.mem_cons_of_mem b hx)) hinv

/-- Bind on a success just applies the continuation. -/
theorem except_bind_ok {α β : Type} (a : α) (f : α → Except Err β) :
    (Except.ok a >>= f) = f a := rfl

/-! ### Claims -/

/-- C2 counterexample: a stream supplying one fewer token than required in
the final group for the final knot parses without any error — no
TruncationError (or any other error) is raised — and the entry the missing
token would have filled stays zero. -/
theorem c2_truncation_counterexample :
    isOkB (readSphStream oneKnotModel ["1 11 1 1", "0.5", "0.1 0.2"]) = true ∧
    modelCoefOf (readSphStream oneKnotModel ["1 11 1 1", "0.5", "0.1 0.2"])
      0 1 1 1 = some (mkRat 0 1) := by
  decide

/-- C2 (amended): the parser raises no error at end of input: every prefix
of a stream whose parse succeeds also parses successfully, so a stream
truncated mid-group or before all groups are filled is accepted silently
with the unfilled coefficients left at zero. -/
theorem c2_truncated_stream_accepted (m : Model) (l1 l2 : List String)
    (m' : Model) (h : readSphStream m (l1 ++ l2) = .ok m') :
    ∃ m'', readSphStream m l1 = .ok m'' := by
  unfold readSphStream at h ⊢
  cases hf : (l1 ++ l2).foldlM processLine (PSt.header m) with
  | error e => rw [hf] at h; cases h
  | ok st =>
    obtain ⟨st1, h1, -⟩ := foldlM_processLine_split hf
    rw [h1]
    exact ⟨stToModel st1, rfl⟩

/-- Witness for C2 (amended) on the truncated one-knot stream. -/
theorem c2_truncated_stream_accepted_witness :
    ∃ m'', readSphStream oneKnotModel ["1 11 1 1", "0.5"] = .ok m'' :=
  c2_truncated_stream_accepted oneKnotModel ["1 11 1 1", "0.5"]
    ["0.1 0.2 0.3"]
    (getOkModel (readSphStream oneKnotModel
      ["1 11 1 1", "0.5", "0.1 0.2 0.3"]) oneKnotModel)
    rfl

/-- C7 counterexample: the same body token sequence
`0.5 0.1 0.2 0.3` parses successfully when split after the first token but
fails with "Too much data" when the two groups share one physical line, so
line breaks are not insignificant. -/
theorem c7_linebreak_counterexample :
    isOkB (readSphStream oneKnotModel ["1 11 1 1", "0.5", "0.1 0.2 0.3"]) =
      true ∧
    resultErr (readSphStream oneKnotModel ["1 11 1 1", "0.5 0.1 0.2 0.3"]) =
      some .tooMuchData := by
  decide

/-- C7 (amended): splitting is insignificant only within a group: when a
line leaves the current group incomplete, processing it and a following
line equals processing their concatenation; a line running past the group
boundary is instead the "too much data" failure shown separately. -/
theorem c7_split_within_group (ks : List ℚ) (deg : Option ℤ) (c : Coefs)
    (buf : List String) (ri li : ℕ) (t1 t2 : List String)
    (h : (buf ++ t1).length < 2 * li + 1) :
    processBody ks deg c buf ri li t1 =
      .ok (PSt.body ks deg c (buf ++ t1) ri li) ∧
    processBody ks deg c buf ri li (t1 ++ t2) =
      processBody ks deg c (buf ++ t1) ri li t2 := by
  constructor
  · unfold processBody
    dsimp only
    rw [if_neg (Nat.ne_of_lt h), if_pos h]
  · unfold processBody
    dsimp only
    rw [List.append_assoc]

/-- Witness for C7 (amended) inside a degree-1 group. -/
theorem c7_split_within_group_witness :
    processBody [1] (some 1) c1demoStart ["0.1"] 0 1 ["0.2"] =
      .ok (PSt.body [1] (some 1) c1demoStart (["0.1"] ++ ["0.2"]) 0 1) ∧
    processBody [1] (some 1) c1demoStart ["0.1"] 0 1 (["0.2"] ++ ["0.3"]) =
      processBody [1] (some 1) c1demoStart (["0.1"] ++ ["0.2"]) 0 1 ["0.3"] :=
  c7_split_within_group [1] (some 1) c1demoStart ["0.1"] 0 1 ["0.2"] ["0.3"]
    (by decide)

/-- C8 counterexample: after the terminal state is reached, one extra line
bearing a token is not ignored: it completes a spurious group for knot
index `len(knots)`, which passes the `ri <= len(knots)` assert and then
fails writing out of bounds (numpy IndexError), while the stream without
the extra line parses successfully. -/
theorem c8_trailing_input_counterexample :
    isOkB (readSphStream oneKnotModel ["1 11 1 1", "0.5", "0.1 0.2 0.3"]) =
      true ∧
    resultErr (readSphStream oneKnotModel
      ["1 11 1 1", "0.5", "0.1 0.2 0.3", "9.9"]) = some .coefIndex := by
  decide

/-- C8 (amended): only additional input without tokens is ignored:
appending whitespace-only lines to any successfully parsed stream leaves
the result unchanged; token-bearing trailing input errors as shown
separately. -/
theorem c8_trailing_blank_lines_ignored (m : Model) (l : String)
    (ls bs : List String) (m' : Model)
    (hb : ∀ b ∈ bs, pySplit b = [])
    (h : readSphStream m (l :: ls) = .ok m') :
    readSphStream m ((l :: ls) ++ bs) = .ok m' := by
  unfold readSphStream at h ⊢
  cases hf : (l :: ls).foldlM processLine (PSt.header m) with
  | error e => rw [hf] at h; cases h
  | ok st =>
    rw [hf] at h
    dsimp only at h
    have hm : stToModel st = m' := by cases h; rfl
    obtain ⟨ks, deg, c, buf, ri, li, rfl, hinv⟩ := foldlM_ok_body (by simp) hf
    rw [List.foldlM_append, hf, except_bind_ok, foldlM_blanks hb hinv]
    dsimp only
    rw [hm]

/-- Witness for C8 (amended): two trailing whitespace-only lines. -/
theorem c8_trailing_blank_lines_ignored_witness :
    readSphStream oneKnotModel
      (["1 11 1 1", "0.5", "0.1 0.2 0.3"] ++ ["", "  "]) =
      .ok (getOkModel (readSphStream oneKnotModel
        ["1 11 1 1", "0.5", "0.1 0.2 0.3"]) oneKnotModel) :=
  c8_trailing_blank_lines_ignored oneKnotModel "1 11 1 1"
    ["0.5", "0.1 0.2 0.3"] ["", "  "]
    (getOkModel (readSphStream oneKnotModel
      ["1 11 1 1", "0.5", "0.1 0.2 0.3"]) oneKnotModel)
    (by decide) rfl

/-- C9 counterexample: a stream with a leading whitespace-only line fails
with an IndexError while the same stream without it parses successfully:
empty lines before the header are not skipped. -/
theorem c9_leading_blank_counterexample :
    resultErr (readSphStream oneKnotModel
      ["", "1 11 1 1", "0.5", "0.1 0.2 0.3"]) = some .headerIndex ∧
    isOkB (readSphStream oneKnotModel ["1 11 1 1", "0.5", "0.1 0.2 0.3"]) =
      true := by
  decide

/-- C9 (amended): the header is taken from the very first line of the
stream, whatever it contains: a whitespace-only first line is consumed as
the header, yielding zero header tokens, and parsing fails with the
IndexError on `header[0]`. -/
theorem c9_header_from_first_line (m : Model) (l : String) (ls : List String)
    (hb : pySplit l = []) :
    readSphStream m (l :: ls) = .error .headerIndex := by
  unfold readSphStream
  rw [List.foldlM_cons]
  have h1 : processLine (PSt.header m) l = .error .headerIndex := by
    show processHeader m l = _
    unfold processHeader
    rw [hb]
  rw [h1]
  rfl

/-- Witness for C9 (amended) on an empty first line. -/
theorem c9_header_from_first_line_witness :
    readSphStream oneKnotModel ["", "1 11 1 1"] = .error .headerIndex :=
  c9_header_from_first_line oneKnotModel "" ["1 11 1 1"] (by decide)

/-- C3: header reconciliation fails before any body processing: with a
fixed model degree differing from the header's used degree the parse stops
at the degree assert, and with a knot bitstring whose count of ones differs
from the model's knot count it stops at the knot assert; either way the
whole parse is the error, so no coefficient is ever written and the knot
table is never resized. -/
theorem c3_header_shape_mismatch :
    (∀ (m : Model) (line : String) (ls : List String) (t0 t1 : String)
        (rest : List String) (d n0 : ℤ),
        pySplit line = t0 :: t1 :: rest → pyInt t0 = some n0 →
        m.degree = some d → (countOnes t1 : ℤ) - 1 ≠ d →
        readSphStream m (line :: ls) = .error .wrongSHOnes) ∧
    (∀ (m : Model) (line : String) (ls : List String) (t0 t1 t2 t3 : String)
        (rest : List String) (n0 n2 : ℤ),
        pySplit line = t0 :: t1 :: t2 :: t3 :: rest →
        pyInt t0 = some n0 → pyInt t2 = some n2 →
        (m.degree = none ∨ m.degree = some ((countOnes t1 : ℤ) - 1)) →
        countOnes t3 ≠ m.knots.length →
        readSphStream m (line :: ls) = .error .wrongKnotsOnes) := by
  constructor
  · intro m line ls t0 t1 rest d n0 hsplit hn0 hdeg hne
    unfold readSphStream
    rw [List.foldlM_cons]
    have h1 : processLine (PSt.header m) line = .error .wrongSHOnes := by
      show processHeader m line = _
      unfold processHeader
      rw [hsplit]
      dsimp only
      rw [hn0]
      dsimp only
      rw [hdeg]
      dsimp only
      rw [if_neg hne]
    rw [h1]
    rfl
  · intro m line ls t0 t1 t2 t3 rest n0 n2 hsplit hn0 hn2 hdegpass hkn
    unfold readSphStream
    rw [List.foldlM_cons]
    have hks : headerKnotsStep m (t2 :: t3 :: rest) (countOnes t1) =
        .error .wrongKnotsOnes := by
      unfold headerKnotsStep
      dsimp only
      rw [hn2]
      dsimp only
      rw [if_neg (Ne.symm hkn)]
    have h1 : processLine (PSt.header m) line = .error .wrongKnotsOnes := by
      show processHeader m line = _
      unfold processHeader
      rw [hsplit]
      dsimp only
      rw [hn0]
      dsimp only
      rcases hdegpass with hnone | hsome
      · rw [hnone]
        dsimp only
        exact hks
      · rw [hsome]
        dsimp only
        rw [if_pos rfl]
        exact hks
    rw [h1]
    rfl

/-- Witness for C3: a model fixed at degree 2 rejects a header carrying
degree 1, and a 1-knot model rejects a header with two knot ones. -/
theorem c3_header_shape_mismatch_witness :
    readSphStream ⟨[1], some 2, some ⟨1, 3, fun _ _ _ _ => 0⟩⟩
      ["1 11 1 1"] = .error .wrongSHOnes ∧
    readSphStream oneKnotModel ["1 11 1 11"] = .error .wrongKnotsOnes :=
  ⟨c3_header_shape_mismatch.1 ⟨[1], some 2, some ⟨1, 3, fun _ _ _ _ => 0⟩⟩
      "1 11 1 1" [] "1" "11" ["1", "1"] 2 1 (by decide) (by decide) rfl
      (by decide),
   c3_header_shape_mismatch.2 oneKnotModel "1 11 1 11" [] "1" "11" "1" "11"
      [] 1 1 (by decide) (by decide) (by decide) (Or.inl rfl) (by decide)⟩

/-- C4: if a physical line pushes the pending buffer past `2*li+1` tokens
the step is exactly the "too much data" failure; if it reaches exactly
`2*li+1` tokens (and the knot assert, the decode and the degree lookup go
through) the group is decoded and the buffer is cleared, with no error. -/
theorem c4_group_buffer_discipline (ks : List ℚ) (deg : Option ℤ) (c : Coefs)
    (buf : List String) (ri li : ℕ) (toks : List String) :
    (2 * li + 1 < (buf ++ toks).length →
      processBody ks deg c buf ri li toks = .error .tooMuchData) ∧
    (∀ (d : ℤ) (c' : Coefs), (buf ++ toks).length = 2 * li + 1 →
      ri ≤ ks.length → deg = some d →
      decodeTokens ri li c 0 0 (buf ++ toks) = .ok c' →
      processBody ks deg c buf ri li toks =
        .ok (if (li : ℤ) + 1 > d then PSt.body ks deg c' [] (ri + 1) 0
             else PSt.body ks deg c' [] ri (li + 1))) := by
  constructor
  · intro hgt
    unfold processBody
    dsimp only
    rw [if_neg (by omega : ¬((buf ++ toks).length = 2 * li + 1)),
        if_neg (by omega : ¬((buf ++ toks).length < 2 * li + 1))]
  · intro d c' hlen hri hdeg hdec
    subst hdeg
    unfold processBody
    dsimp only
    rw [if_pos hlen, if_pos hri, hdec]
    dsimp only
    by_cases hgt : (li : ℤ) + 1 > d
    · rw [if_pos hgt, if_pos hgt]
    · rw [if_neg hgt, if_neg hgt]

/-- Witness for C4: a 2-token line overflows the 1-token group, and a
2-token line exactly completing the 3-token group decodes and clears. -/
theorem c4_group_buffer_discipline_witness :
    processBody [1] (some 1) c1demoStart [] 0 0 ["0.5", "9.9"] =
      .error .tooMuchData ∧
    processBody [1] (some 1) c1demoStart ["0.1"] 0 1 ["0.2", "0.3"] =
      .ok (if ((1 : ℕ) : ℤ) + 1 > (1 : ℤ) then
             PSt.body [1] (some 1)
               (getOkCoefs (decodeTokens 0 1 c1demoStart 0 0
                 (["0.1"] ++ ["0.2", "0.3"])) c1demoStart) [] (0 + 1) 0
           else
             PSt.body [1] (some 1)
               (getOkCoefs (decodeTokens 0 1 c1demoStart 0 0
                 (["0.1"] ++ ["0.2", "0.3"])) c1demoStart) [] 0 (1 + 1)) :=
  ⟨(c4_group_buffer_discipline [1] (some 1) c1demoStart [] 0 0
      ["0.5", "9.9"]).1 (by decide),
   (c4_group_buffer_discipline [1] (some 1) c1demoStart ["0.1"] 0 1
      ["0.2", "0.3"]).2 1
      (getOkCoefs (decodeTokens 0 1 c1demoStart 0 0
        (["0.1"] ++ ["0.2", "0.3"])) c1demoStart)
      (by decide) (by decide) rfl rfl⟩

/-- C5: on a four-token header line with integer tokens 1 and 3 and a model
whose degree is not yet fixed, the parser reads `used_degree` as the count
of ones of token 2 minus one and `used_knots` as the count of ones of token
4: when `used_knots` matches the knot count it sets the degree and
allocates the `(len(knots), 2, used_degree+1, used_degree+1)` zero array,
and when it differs it fails with the knot shape assert. -/
theorem c5_header_decoding (m : Model) (line : String) (ls : List String)
    (t0 t1 t2 t3 : String) (n0 n2 : ℤ)
    (hsplit : pySplit line = [t0, t1, t2, t3])
    (hn0 : pyInt t0 = some n0) (hn2 : pyInt t2 = some n2)
    (hdeg : m.degree = none) (hcf : m.coefs = none) :
    (m.knots.length = countOnes t3 →
      readSphStream m [line] =
        .ok ⟨m.knots, some ((countOnes t1 : ℤ) - 1),
             some ⟨m.knots.length, countOnes t1, fun _ _ _ _ => 0⟩⟩) ∧
    (m.knots.length ≠ countOnes t3 →
      readSphStream m (line :: ls) = .error .wrongKnotsOnes) := by
  constructor
  · intro hkn
    unfold readSphStream
    rw [List.foldlM_cons]
    have h1 : processLine (PSt.header m) line =
        .ok (PSt.body m.knots (some ((countOnes t1 : ℤ) - 1))
          ⟨m.knots.length, countOnes t1, fun _ _ _ _ => 0⟩ [] 0 0) := by
      show processHeader m line = _
      unfold processHeader
      rw [hsplit]
      dsimp only
      rw [hn0]
      dsimp only
      rw [hdeg]
      dsimp only
      unfold headerKnotsStep
      dsimp only
      rw [hn2]
      dsimp only
      rw [if_pos hkn, hcf]
      dsimp only
      unfold allocateCoefs
      rw [if_pos (by omega : (0 : ℤ) ≤ (countOnes t1 : ℤ) - 1 + 1)]
      have ht : ((countOnes t1 : ℤ) - 1 + 1).toNat = countOnes t1 := by omega
      rw [ht]
    rw [h1]
    rfl
  · intro hkn
    unfold readSphStream
    rw [List.foldlM_cons]
    have h1 : processLine (PSt.header m) line = .error .wrongKnotsOnes := by
      show processHeader m line = _
      unfold processHeader
      rw [hsplit]
      dsimp only
      rw [hn0]
      dsimp only
      rw [hdeg]
      dsimp only
      unfold headerKnotsStep
      dsimp only
      rw [hn2]
      dsimp only
      rw [if_neg hkn]
    rw [h1]
    rfl

/-- Witness for C5: bitstring "111" yields degree 2 with a fresh
`(1, 2, 3, 3)` zero array on the 1-knot model; a mismatching knot
bitstring fails instead. -/
theorem c5_header_decoding_witness :
    readSphStream oneKnotModel ["7 111 3 1"] =
      .ok ⟨[1], some 2, some ⟨1, 3, fun _ _ _ _ => 0⟩⟩ ∧
    readSphStream oneKnotModel ["7 111 3 11", "0.5"] =
      .error .wrongKnotsOnes :=
  ⟨(c5_header_decoding oneKnotModel "7 111 3 1" [] "7" "111" "3" "1" 7 3
      (by decide) (by decide) (by decide) rfl rfl).1 (by decide),
   (c5_header_decoding oneKnotModel "7 111 3 11" ["0.5"] "7" "111" "3" "11"
      7 3 (by decide) (by decide) (by decide) rfl rfl).2 (by decide)⟩

/-- C6: allocation zero-fills the whole array, and a successful parse of
any stream keeps every entry with order index above degree index at zero:
the decoding loop only ever writes order indices `mi <= li`. -/
theorem c6_upper_triangle_zero :
    (∀ (nk : ℕ) (d : ℤ) (c : Coefs), allocateCoefs nk d = some c →
      ∀ k b l m, c.data k b l m = 0) ∧
    (∀ (mo : Model) (lines : List String) (mo' : Model),
      (∀ c, mo.coefs = some c → UpperZero c) →
      readSphStream mo lines = .ok mo' →
      ∀ c', mo'.coefs = some c' → UpperZero c') := by
  constructor
  · intro nk d c hc k b l m
    unfold allocateCoefs at hc
    split at hc
    · cases hc
      rfl
    · cases hc
  · intro mo lines mo' hmo h c' hc'
    unfold readSphStream at h
    cases hf : lines.foldlM processLine (PSt.header mo) with
    | error e => rw [hf] at h; cases h
    | ok st =>
      rw [hf] at h
      dsimp only at h
      have hst : StUpper st :=
        foldlM_processLine_inv StUpper
          (fun st1 line st2 h2 hP => processLine_upper h2 hP)
          lines (PSt.header mo) st hf hmo
      have hm : stToModel st = mo' := by cases h; rfl
      cases st with
      | header m2 =>
        subst hm
        exact hst c' hc'
      | body ks deg c buf ri li =>
        subst hm
        cases hc'
        exact hst

/-- Witness for C6: an allocated entry is zero, and the above-diagonal
entry (degree 0, order 1) of the parsed 1-knot model is zero. -/
theorem c6_upper_triangle_zero_witness :
    emptyCoefs.data 0 0 0 1 = 0 ∧
    ((getOkModel (readSphStream oneKnotModel
        ["1 11 1 1", "0.5", "0.1 0.2 0.3"]) oneKnotModel).coefs.getD
      emptyCoefs).data 0 0 0 1 = 0 :=
  ⟨c6_upper_triangle_zero.1 0 (-1) emptyCoefs (by rfl) 0 0 0 1,
   (c6_upper_triangle_zero.2 oneKnotModel
      ["1 11 1 1", "0.5", "0.1 0.2 0.3"]
      (getOkModel (readSphStream oneKnotModel
        ["1 11 1 1", "0.5", "0.1 0.2 0.3"]) oneKnotModel)
      (fun c hc => nomatch hc) rfl
      ((getOkModel (readSphStream oneKnotModel
        ["1 11 1 1", "0.5", "0.1 0.2 0.3"]) oneKnotModel).coefs.getD
        emptyCoefs) rfl) 0 0 0 1 (by decide)⟩

/-- C10: construction performs no validation of the knots: any supplied
list, including values outside [-1, 1], non-monotonic ones, and the empty
list, is stored as-is, and only its length enters the array shape; no
error is raised about the knot values. -/
theorem c10_constructor_stores_knots (ks : List ℚ) (d : ℤ) (ir orad : ℚ)
    (hd : 0 ≤ d) :
    pyRTSInit none (some d) (some ks) ir orad =
      .ok ⟨ks, some d, some ⟨ks.length, (d + 1).toNat, fun _ _ _ _ => 0⟩,
           ir, orad⟩ := by
  unfold pyRTSInit
  dsimp only
  unfold allocateCoefs
  rw [if_pos (by omega : (0 : ℤ) ≤ d + 1)]

/-- Witness for C10: the empty knot list and a non-monotonic list with
values far outside [-1, 1] are both stored untouched. -/
theorem c10_constructor_stores_knots_witness :
    pyRTSInit none (some 1) (some []) 3480 (mkRat 6346691 1000) =
      .ok ⟨[], some 1, some ⟨List.length ([] : List ℚ), ((1 : ℤ) + 1).toNat,
           fun _ _ _ _ => 0⟩, 3480, mkRat 6346691 1000⟩ ∧
    pyRTSInit none (some 0) (some [5, mkRat (-7) 2, 5, mkRat 3 2]) 0 0 =
      .ok ⟨[5, mkRat (-7) 2, 5, mkRat 3 2], some 0,
           some ⟨List.length [(5 : ℚ), mkRat (-7) 2, 5, mkRat 3 2],
             ((0 : ℤ) + 1).toNat, fun _ _ _ _ => 0⟩, 0, 0⟩ :=
  ⟨c10_constructor_stores_knots [] 1 3480 (mkRat 6346691 1000) (by decide),
   c10_constructor_stores_knots [5, mkRat (-7) 2, 5, mkRat 3 2] 0 0 0
     (by decide)⟩

/-- C1: parsing the end-to-end scenario stream (default 21-knot table,
degree 1, header "1 11 21 <21 ones>", per knot the groups "0.5" and
"0.1 0.2 0.3") writes, for every knot k, 0.5 at (k,0,0,0), 0.1 at
(k,0,1,0), 0.2 at (k,0,1,1) and 0.3 at (k,1,1,1); and in general in every
completed group of `2*li+1` tokens, token 0 is the real part at order 0,
the token at odd position `2*j-1` the real part at the running order `j`,
and the token at even position `2*j` the imaginary part at that same `j`. -/
theorem c1_end_to_end_and_group_mapping :
    (∀ k : Fin 21,
      coefOf c1Run k 0 0 0 = some (mkRat 1 2) ∧
      coefOf c1Run k 0 1 0 = some (mkRat 1 10) ∧
      coefOf c1Run k 0 1 1 = some (mkRat 2 10) ∧
      coefOf c1Run k 1 1 1 = some (mkRat 3 10)) ∧
    (∀ (ri li : ℕ) (c c' : Coefs) (ts : List String),
      ts.length = 2 * li + 1 →
      decodeTokens ri li c 0 0 ts = .ok c' →
      pyFloat (ts.getD 0 "") = some (c'.data ri 0 li 0) ∧
      ∀ j, 1 ≤ j → j ≤ li →
        pyFloat (ts.getD (2 * j - 1) "") = some (c'.data ri 0 li j) ∧
        pyFloat (ts.getD (2 * j) "") = some (c'.data ri 1 li j)) := by
  constructor
  · decide
  · intro ri li c c' ts hlen h
    obtain ⟨h0, hj, -⟩ := decodeTokens_entry hlen h
    exact ⟨h0, hj⟩

/-- Witness for C1's general clause on a concrete degree-1 group: token 0
is the real order-0 value, token 1 the real order-1 value, token 2 the
imaginary order-1 value. -/
theorem c1_end_to_end_and_group_mapping_witness :
    pyFloat (c1demoTokens.getD 0 "") = some (c1demoDecoded.data 0 0 1 0) ∧
    pyFloat (c1demoTokens.getD 1 "") = some (c1demoDecoded.data 0 0 1 1) ∧
    pyFloat (c1demoTokens.getD 2 "") = some (c1demoDecoded.data 0 1 1 1) :=
  ⟨(c1_end_to_end_and_group_mapping.2 0 1 c1demoStart c1demoDecoded
      c1demoTokens (by decide) rfl).1,
   ((c1_end_to_end_and_group_mapping.2 0 1 c1demoStart c1demoDecoded
      c1demoTokens (by decide) rfl).2 1 (by decide) (by decide)).1,
   ((c1_end_to_end_and_group_mapping.2 0 1 c1demoStart c1demoDecoded
      c1demoTokens (by decide) rfl).2 1 (by decide) (by decide)).2⟩
